import Mathlib

set_option maxRecDepth 100000
set_option maxHeartbeats 1000000

/-!
Shallow embedding of the response-parsing core of the ESP32 CalDAV client
(src/src/caldav_client.cpp, the canonical variant matching include/caldav_client.h),
together with theorems settling the specification claims about it.

Bodies and fields are modelled as `List Char`; `std::string::find`, `strstr`
and `find_first_of` are modelled by `strFind` / `findCharIdx`; `std::string::npos`
results are modelled by `Option Nat`.  All recursion is structural (loops whose
C termination argument is "the scan position strictly advances" carry an explicit
fuel argument instantiated with a bound that the C loop itself satisfies).
-/

/-- Convert a string literal to the `List Char` representation used throughout. -/
def str (s : String) : List Char := s.data

/-- Model of `std::string::find(needle)` / `strstr`: index of the first
occurrence of `needle` in `hay`, or `none`.  An empty needle matches at 0. -/
def strFind (hay : List Char) (needle : List Char) : Option Nat :=
  match hay with
  | [] => if needle.isPrefixOf [] then some 0 else none
  | c :: t => if needle.isPrefixOf (c :: t) then some 0 else (strFind t needle).map (· + 1)

/-- Model of `find(needle, start)`: first occurrence at index ≥ `start`. -/
def strFindFrom (hay needle : List Char) (start : Nat) : Option Nat :=
  (strFind (hay.drop start) needle).map (start + ·)

/-- Model of `find(...) != npos` containment tests. -/
def containsSub (hay needle : List Char) : Bool :=
  (strFind hay needle).isSome

/-- Index of the first character of `l` that belongs to `cs` (relative search,
used to model `find_first_of` and single-character `find`). -/
def findCharIdx (cs : List Char) : List Char → Option Nat
  | [] => none
  | c :: t => if cs.contains c then some 0 else (findCharIdx cs t).map (· + 1)

/-- Model of `std::string::find_first_of(cs, start)` (and of `find(c, start)`
when `cs` is a singleton): first index ≥ `start` of a character in `cs`. -/
def findCharFrom (hay : List Char) (cs : List Char) (start : Nat) : Option Nat :=
  (findCharIdx cs (hay.drop start)).map (start + ·)

/-- Model of `find_last_of(c, pos)`: the largest index `i ≤ pos` with
`hay[i] = c`, or `none`. -/
def findLastCharLe (hay : List Char) (c : Char) : Nat → Option Nat
  | 0 => if hay[0]? = some c then some 0 else none
  | p + 1 => if hay[p + 1]? = some c then some (p + 1) else findLastCharLe hay c p

/-- Model of `find_last_of(c)`. -/
def findLastChar (hay : List Char) (c : Char) : Option Nat :=
  findLastCharLe hay c (hay.length - 1)

/-- Error taxonomy of the client, mirroring `CalDAV_Error_t` in
include/caldav_client.h. -/
inductive CalDAV_Error where
  | OK
  | INVALID_ARG
  | NO_MEM
  | FAIL
  | NOT_INITIALIZED
  | CONNECTION
  | HTTP
  | TIMEOUT
  | NOT_FOUND
deriving DecidableEq, Repr

/-- Model of `_CalDAV_String_to_cstr`: `NULL` (`none`) for the empty string,
otherwise a copy of the string. -/
def CalDAV_String_to_cstr (s : List Char) : Option (List Char) :=
  if s.isEmpty then none else some s

/-- Model of `_CalDAV_Extract_iCal_Field` (caldav_client.cpp lines 149-183):
find the field name; if a ':' occurs between the end of the field name and the
next line break (or the end of the data, when no line break follows), the value
starts after that colon; the value ends at the first of '\n' or '\r'; a
trailing '\r' is stripped.  The empty result models the absent field. -/
def CalDAV_Extract_iCal_Field (data field : List Char) : List Char :=
  match strFind data field with
  | none => []
  | some s0 =>
    let start0 := s0 + field.length
    let start1 :=
      match findCharFrom data [':'] start0 with
      | none => start0
      | some colonPos =>
        match findCharFrom data ['\n', '\r'] start0 with
        | none => colonPos + 1
        | some lineEnd => if colonPos < lineEnd then colonPos + 1 else start0
    match findCharFrom data ['\n', '\r'] start1 with
    | none => data.drop start1
    | some e =>
      let value := (data.drop start1).take (e - start1)
      if value.getLast? = some '\r' then value.dropLast else value

/-- Model of `_CalDAV_Extract_XML_Tag_Value` (caldav_client.cpp lines 190-218):
look for `<tag>`, falling back to the namespace-prefixed opening form
`:tag>`; skip to the closing '>' of the opening tag; the content runs up to
the literal closing tag `</tag>`.  The empty result models the absent value. -/
def CalDAV_Extract_XML_Tag_Value (data tag : List Char) : List Char :=
  let startTagPlain := '<' :: (tag ++ ['>'])
  let startTagNS := ':' :: (tag ++ ['>'])
  let endTag := '<' :: '/' :: (tag ++ ['>'])
  let s0 :=
    match strFind data startTagPlain with
    | some p => some p
    | none => strFind data startTagNS
  match s0 with
  | none => []
  | some p =>
    match findCharFrom data ['>'] p with
    | none => []
    | some gt =>
      match strFind (data.drop (gt + 1)) endTag with
      | none => []
      | some e => (data.drop (gt + 1)).take e

/-- Outcome of one HTTP exchange as seen by the client code:
`fail` models `esp_http_client_perform` returning other than `ESP_OK`
(no usable response), `status` the HTTP status code, and `body` the content of
the accumulated response buffer (`none` when the buffer was never allocated
because no data event arrived). -/
structure TransportResult where
  fail : Bool
  status : Nat
  body : Option (List Char)

/-- Status interpretation of `CalDAV_Test_Connection`
(caldav_client.cpp lines 288-307): transport failure yields CONNECTION;
status 200, 204 or 207 yields OK; 401 and every other status yield HTTP. -/
def CalDAV_Test_Connection (tr : TransportResult) : CalDAV_Error :=
  if tr.fail then .CONNECTION
  else if tr.status = 200 ∨ tr.status = 204 ∨ tr.status = 207 then .OK
  else if tr.status = 401 then .HTTP
  else .HTTP

/-- Record for one calendar, mirroring `CalDAV_Calendar_t`; `none` models a
NULL pointer left by `calloc`. -/
structure CalDAV_Calendar where
  Name : Option (List Char)
  Path : Option (List Char)
  DisplayName : Option (List Char)
  Description : Option (List Char)
  Color : Option (List Char)
deriving DecidableEq, Repr

/-- Record for one event, mirroring `CalDAV_Calendar_Event_t`. -/
structure CalDAV_Calendar_Event where
  UID : Option (List Char)
  Summary : Option (List Char)
  Description : Option (List Char)
  StartTime : Option (List Char)
  EndTime : Option (List Char)
  Location : Option (List Char)
deriving DecidableEq, Repr

/-- The literal "BEGIN:VEVENT" (12 characters). -/
def beginVEventMark : List Char := str "BEGIN:VEVENT"

/-- The literal "END:VEVENT" (10 characters). -/
def endVEventMark : List Char := str "END:VEVENT"

/-- Field extraction for one VEVENT block (caldav_client.cpp lines 802-807). -/
def CalDAV_Parse_Event_Block (eventData : List Char) : CalDAV_Calendar_Event where
  Summary := CalDAV_String_to_cstr (CalDAV_Extract_iCal_Field eventData (str "SUMMARY:"))
  Description := CalDAV_String_to_cstr (CalDAV_Extract_iCal_Field eventData (str "DESCRIPTION:"))
  Location := CalDAV_String_to_cstr (CalDAV_Extract_iCal_Field eventData (str "LOCATION:"))
  UID := CalDAV_String_to_cstr (CalDAV_Extract_iCal_Field eventData (str "UID:"))
  StartTime := CalDAV_String_to_cstr (CalDAV_Extract_iCal_Field eventData (str "DTSTART"))
  EndTime := CalDAV_String_to_cstr (CalDAV_Extract_iCal_Field eventData (str "DTEND"))

/-- Fueled model of the BEGIN:VEVENT counting loop
(caldav_client.cpp lines 728-731): each iteration advances the search position
by at least 12 characters, so `length + 1` fuel always suffices. -/
def countBeginF : Nat → List Char → Nat
  | 0, _ => 0
  | fuel + 1, s =>
    match strFind s beginVEventMark with
    | none => 0
    | some b => 1 + countBeginF fuel (s.drop (b + 12))

/-- Number of occurrences of BEGIN:VEVENT found by the counting loop. -/
def countBeginVEvent (s : List Char) : Nat :=
  countBeginF (s.length + 1) s

/-- The VEVENT scanning loop (caldav_client.cpp lines 764-813), written on the
unscanned suffix of the body: find BEGIN:VEVENT, find END:VEVENT after it
(stopping the scan when absent), slice the block through the end marker,
parse its fields, continue after the end marker.  The first argument models
the loop bound `CurrentEvent < EventCount`. -/
def eventsScanF : Nat → List Char → List CalDAV_Calendar_Event
  | 0, _ => []
  | n + 1, s =>
    match strFind s beginVEventMark with
    | none => []
    | some b =>
      let s1 := s.drop b
      match strFind s1 endVEventMark with
      | none => []
      | some e =>
        CalDAV_Parse_Event_Block (s1.take (e + 10)) :: eventsScanF n (s1.drop (e + 10))

/-- Body-parsing part of `CalDAV_Calendar_Events_List`
(caldav_client.cpp lines 722-818, allocation always succeeding):
count BEGIN:VEVENT occurrences; zero occurrences yield an empty OK result;
otherwise scan at most that many blocks. -/
def CalDAV_Events_Parse (body : List Char) : CalDAV_Error × List CalDAV_Calendar_Event :=
  let eventCount := countBeginVEvent body
  if eventCount = 0 then (.OK, [])
  else (.OK, eventsScanF eventCount body)

/-- Full outcome of `CalDAV_Calendar_Events_List` for one transport exchange
(caldav_client.cpp lines 688-818).  The second component models the output
parameters: `none` when the function returns without storing a list. -/
def CalDAV_Calendar_Events_List (tr : TransportResult) :
    CalDAV_Error × Option (List CalDAV_Calendar_Event) :=
  if tr.fail then (.HTTP, none)
  else if tr.status ≠ 200 ∧ tr.status ≠ 207 then (.HTTP, none)
  else
    match tr.body with
    | none => (.HTTP, none)
    | some body =>
      let r := CalDAV_Events_Parse body
      (r.1, some r.2)

/-- The literal ":calendar" (9 characters). -/
def calendarNSMark : List Char := str ":calendar"

/-- Character class of the namespace-prefix walk-back in the calendar tag
counting loop (letters, digits, '/'). -/
def isTagPrefixChar (c : Char) : Bool :=
  (decide ('A' ≤ c) && decide (c ≤ 'Z')) || (decide ('a' ≤ c) && decide (c ≤ 'z')) ||
    (decide ('0' ≤ c) && decide (c ≤ '9')) || (c == '/')

/-- Walk-back check of the counting loop (caldav_client.cpp lines 383-402):
from position `pos` (the ':' of a ":calendar" occurrence), walk left over
letters, digits and '/', and accept when the character reached is '<'. -/
def tagPreceded (body : List Char) : Nat → Bool
  | 0 => false
  | i + 1 =>
    let c := body.getD i ' '
    if isTagPrefixChar c then tagPreceded body i
    else c == '<'

/-- Fueled model of the ":calendar" tag counting loop
(caldav_client.cpp lines 381-411): each iteration advances the position by at
least 9 characters, so `length + 1` fuel always suffices. -/
def countCalTagsF (body : List Char) : Nat → Nat → Nat
  | 0, _ => 0
  | fuel + 1, pos =>
    match strFindFrom body calendarNSMark pos with
    | none => 0
    | some j => (if tagPreceded body j then 1 else 0) + countCalTagsF body fuel (j + 9)

/-- Upper-bound pre-count of calendars: occurrences of ":calendar" preceded,
through a namespace prefix, by '<'. -/
def countCalTags (body : List Char) : Nat :=
  countCalTagsF body (body.length + 1) 0

/-- Calendar name derivation from the href (caldav_client.cpp lines 484-497):
the segment after the last '/', or, when the href ends in '/', the segment
before that trailing slash; `strdup` semantics, so the result may be the empty
string. -/
def calendarNameFromHref (href : List Char) : Option (List Char) :=
  match findLastChar href '/' with
  | none => none
  | some lastSlash =>
    if lastSlash + 1 < href.length then some (href.drop (lastSlash + 1))
    else if 0 < lastSlash then
      match findLastCharLe href '/' (lastSlash - 1) with
      | none => none
      | some prevSlash => some ((href.drop (prevSlash + 1)).take (lastSlash - prevSlash - 1))
    else none

/-- Population of one calendar record from a `<response>` block
(caldav_client.cpp lines 474-518). -/
def CalDAV_Populate_Calendar (block : List Char) : CalDAV_Calendar :=
  let href := CalDAV_Extract_XML_Tag_Value block (str "href")
  { Path := if href.isEmpty then none else CalDAV_String_to_cstr href
    Name := if href.isEmpty then none else calendarNameFromHref href
    DisplayName := CalDAV_String_to_cstr (CalDAV_Extract_XML_Tag_Value block (str "displayname"))
    Description :=
      CalDAV_String_to_cstr (CalDAV_Extract_XML_Tag_Value block (str "calendar-description"))
    Color := none }

/-- Classification of the `<resourcetype>` sub-block of a response block
(caldav_client.cpp lines 451-472): `none` when the sub-block (with its closing
tag) is absent, otherwise the sub-block text from `<resourcetype>` up to the
closing tag. -/
def resourceTypeBlock (block : List Char) : Option (List Char) :=
  match strFind block (str "<resourcetype>") with
  | none => none
  | some p =>
    match strFind (block.drop p) (str "</resourcetype>") with
    | none => none
    | some q => some ((block.drop p).take q)

/-- The `<response>` block scanning loop of `CalDAV_Calendars_List`
(caldav_client.cpp lines 432-522), on the unscanned suffix.  `remaining`
models `CalendarCount - CurrentCalendar`; `principal` the `PrincipalPath`
accumulator; `fuel` the termination argument (each iteration consumes at least
one character, so `length + 1` fuel always suffices).  Returns the populated
records in order together with the final principal path. -/
def calRespLoopF : Nat → Nat → List Char → List Char → List CalDAV_Calendar × List Char
  | 0, _, _, principal => ([], principal)
  | _ + 1, 0, _, principal => ([], principal)
  | fuel + 1, remaining + 1, s, principal =>
    match strFind s (str "<response>") with
    | none => ([], principal)
    | some r =>
      let s1 := s.drop r
      match strFind s1 (str "</response>") with
      | none => ([], principal)
      | some e =>
        let block := s1.take e
        let href := CalDAV_Extract_XML_Tag_Value block (str "href")
        match resourceTypeBlock block with
        | none => calRespLoopF fuel (remaining + 1) (s1.drop (e + 1)) principal
        | some rtb =>
          if containsSub rtb calendarNSMark || containsSub rtb (str "<calendar") then
            let rest := calRespLoopF fuel remaining (s1.drop (e + 1)) principal
            (CalDAV_Populate_Calendar block :: rest.1, rest.2)
          else if containsSub rtb (str "<principal") then
            let principal2 := if principal.isEmpty && !href.isEmpty then href else principal
            calRespLoopF fuel (remaining + 1) (s1.drop (e + 1)) principal2
          else calRespLoopF fuel (remaining + 1) (s1.drop (e + 1)) principal

/-- Result of parsing one calendar-listing response body: the error code, the
populated calendar records (their number is the reported `Length`), and the
recorded principal path (empty when none was recorded). -/
structure CalParseResult where
  error : CalDAV_Error
  cals : List CalDAV_Calendar
  principal : List Char
deriving DecidableEq, Repr

/-- Body-parsing part of `CalDAV_Calendars_List`
(caldav_client.cpp lines 359-525, allocation always succeeding): reject HTML
bodies; pre-count prefixed ":calendar" tags, returning an empty OK result when
the count is zero; otherwise scan the `<response>` blocks. -/
def CalDAV_Calendars_Parse (body : List Char) : CalParseResult :=
  if containsSub body (str "<!DOCTYPE html>") || containsSub body (str "<html>") ||
      containsSub body (str "<html ") then
    ⟨.HTTP, [], []⟩
  else
    let calendarCount := countCalTags body
    if calendarCount = 0 then ⟨.OK, [], []⟩
    else
      let r := calRespLoopF (body.length + 1) calendarCount body []
      ⟨.OK, r.1, r.2⟩

/-- URL built for the principal fallback (caldav_client.cpp lines 530-545):
the scheme and host of the server URL (everything before the first '/' after
"://"), concatenated with the principal path. -/
def buildPrincipalURL (serverURL principal : List Char) : List Char :=
  let base :=
    match strFind serverURL (str "://") with
    | none => serverURL
    | some se =>
      match findCharFrom serverURL ['/'] (se + 3) with
      | none => serverURL
      | some ps => serverURL.take ps
  base ++ principal

/-- Outcome of one round of `CalDAV_Calendars_List`: either a final return or
a recursive re-run against a new URL. -/
inductive CalStep where
  | ret : CalDAV_Error → List CalDAV_Calendar → CalStep
  | recurse : List Char → CalStep
deriving DecidableEq, Repr

/-- One round of `CalDAV_Calendars_List` (caldav_client.cpp lines 309-556)
for a given transport outcome: transport failure and unexpected status yield
HTTP; a missing body yields OK with an empty list; otherwise the body is
parsed, and when no calendar was populated but a principal path was recorded
the function re-runs itself against the principal URL. -/
def CalDAV_Calendars_List_Step (url : List Char) (tr : TransportResult) : CalStep :=
  if tr.fail then .ret .HTTP []
  else if tr.status ≠ 200 ∧ tr.status ≠ 207 then .ret .HTTP []
  else
    match tr.body with
    | none => .ret .OK []
    | some body =>
      let r := CalDAV_Calendars_Parse body
      if r.cals.isEmpty && !r.principal.isEmpty then
        .recurse (buildPrincipalURL url r.principal)
      else .ret r.error r.cals

/-- The full (recursive) `CalDAV_Calendars_List`, driven by a transport
oracle.  The C function recurses with no depth bound; the `fuel` argument
makes the model total, with `none` meaning that the C function has not
returned within `fuel` rounds. -/
def CalDAV_Calendars_List_Run (transport : List Char → TransportResult) :
    Nat → List Char → Option (CalDAV_Error × List CalDAV_Calendar)
  | 0, _ => none
  | fuel + 1, url =>
    match CalDAV_Calendars_List_Step url (transport url) with
    | .ret e cs => some (e, cs)
    | .recurse u => CalDAV_Calendars_List_Run transport fuel u

/-- The NUL character written after every chunk. -/
def nullChar : Char := Char.ofNat 0

/-- Placeholder for bytes whose value `malloc`/`realloc` leaves unspecified. -/
def uninitChar : Char := 'U'

/-- Overwrite `mem` starting at `pos` with `chunk` (model of `memcpy` into a
buffer; the surrounding bytes are preserved). -/
def writeAt (mem : List Char) (pos : Nat) (chunk : List Char) : List Char :=
  mem.take pos ++ chunk ++ mem.drop (pos + chunk.length)

/-- The capacity-doubling loop (caldav_client.cpp lines 112-115): double
`size` while `need ≥ size`.  Doubling a positive size exceeds `need` within
`need + 1` steps, so that fuel always suffices. -/
def growSizeF : Nat → Nat → Nat → Nat
  | 0, _, size => size
  | fuel + 1, need, size => if need ≥ size then growSizeF fuel need (size * 2) else size

/-- The response accumulator state, mirroring `HTTP_Response_Buffer_t`:
`mem` is the allocated storage (its length is `Size`), `position` the write
position. -/
structure HTTP_Response_Buffer where
  mem : List Char
  position : Nat
deriving DecidableEq, Repr

/-- One `HTTP_EVENT_ON_DATA` round of `on_HTTP_Event_Handler`
(caldav_client.cpp lines 91-142), with every allocation succeeding:
allocate `bufferLength` bytes on the first call; when the chunk does not leave
room for the terminator, double the capacity until it does, reallocating
(which preserves the existing bytes); copy the chunk at the write position,
advance it, and write a NUL terminator. -/
def on_HTTP_Event_Handler (bufferLength : Nat) (st : Option HTTP_Response_Buffer)
    (chunk : List Char) : HTTP_Response_Buffer :=
  let b :=
    match st with
    | none => (⟨List.replicate bufferLength uninitChar, 0⟩ : HTTP_Response_Buffer)
    | some b => b
  let b2 :=
    if b.position + chunk.length ≥ b.mem.length then
      let newSize :=
        growSizeF (b.position + chunk.length + 1) (b.position + chunk.length) (b.mem.length * 2)
      (⟨b.mem ++ List.replicate (newSize - b.mem.length) uninitChar, b.position⟩ :
        HTTP_Response_Buffer)
    else b
  ⟨writeAt (writeAt b2.mem b2.position chunk) (b2.position + chunk.length) [nullChar],
    b2.position + chunk.length⟩

/-- A heap ledger for the allocation-failure analysis: `fresh` numbers the
allocations performed so far, `live` lists the allocations not yet freed. -/
structure HeapSt where
  fresh : Nat
  live : List Nat
deriving DecidableEq, Repr

/-- A successful allocation: returns the new block id. -/
def halloc (h : HeapSt) : Nat × HeapSt :=
  (h.fresh, ⟨h.fresh + 1, h.fresh :: h.live⟩)

/-- Model of `CUSTOM_FREE` on a possibly-NULL pointer: freeing NULL is a
no-op. -/
def hfree (h : HeapSt) : Option Nat → HeapSt
  | none => h
  | some i => ⟨h.fresh, h.live.erase i⟩

/-- An event record in the heap-instrumented model: each populated field holds
the id of the string allocated (`strdup`) for it. -/
structure CalDAV_Calendar_Event_H where
  UID : Option Nat
  Summary : Option Nat
  Description : Option Nat
  StartTime : Option Nat
  EndTime : Option Nat
  Location : Option Nat
deriving DecidableEq, Repr

/-- Allocation performed by `_CalDAV_String_to_cstr`: nothing for an empty
extraction, one `strdup` block otherwise. -/
def allocField (h : HeapSt) (content : List Char) : Option Nat × HeapSt :=
  if content.isEmpty then (none, h)
  else
    let (i, h1) := halloc h
    (some i, h1)

/-- Field extraction of one VEVENT block in the heap-instrumented model,
in source order (caldav_client.cpp lines 802-807). -/
def CalDAV_Parse_Event_Block_H (h : HeapSt) (eventData : List Char) :
    CalDAV_Calendar_Event_H × HeapSt :=
  let (su, h1) := allocField h (CalDAV_Extract_iCal_Field eventData (str "SUMMARY:"))
  let (de, h2) := allocField h1 (CalDAV_Extract_iCal_Field eventData (str "DESCRIPTION:"))
  let (lo, h3) := allocField h2 (CalDAV_Extract_iCal_Field eventData (str "LOCATION:"))
  let (ui, h4) := allocField h3 (CalDAV_Extract_iCal_Field eventData (str "UID:"))
  let (st, h5) := allocField h4 (CalDAV_Extract_iCal_Field eventData (str "DTSTART"))
  let (en, h6) := allocField h5 (CalDAV_Extract_iCal_Field eventData (str "DTEND"))
  (⟨ui, su, de, st, en, lo⟩, h6)

/-- The cleanup loop body of the allocation-failure branch
(caldav_client.cpp lines 780-787): free the six field strings of one already
populated record. -/
def freeEventFieldsH (h : HeapSt) (ev : CalDAV_Calendar_Event_H) : HeapSt :=
  hfree (hfree (hfree (hfree (hfree (hfree h ev.Summary) ev.Description) ev.Location) ev.UID)
    ev.StartTime) ev.EndTime

/-- Outcome of the heap-instrumented `CalDAV_Calendar_Events_List` body scan:
error code, the state of the `*p_Events` output (`none` models NULL, otherwise
the array allocation id with the populated records), the state of the
`*Length` output (`none` models "left unset"), and the final heap. -/
structure EventsAllocResult where
  err : CalDAV_Error
  events : Option (Nat × List CalDAV_Calendar_Event_H)
  len : Option Nat
  heap : HeapSt
deriving DecidableEq, Repr

/-- The VEVENT scanning loop with allocation instrumentation
(caldav_client.cpp lines 762-816).  `evDataFail k` tells whether the
`EventData` allocation for the `k`-th populated record fails.  On failure the
code frees the fields of the records populated so far, overwrites `*p_Events`
with NULL, zeroes `*Length`, and only then calls `CUSTOM_FREE(*p_Events)` —
which by then frees NULL (caldav_client.cpp lines 789-792). -/
def eventsScanAllocF (evDataFail : Nat → Bool) (arrId : Nat) :
    Nat → List Char → Nat → List CalDAV_Calendar_Event_H → HeapSt → EventsAllocResult
  | 0, _, k, acc, h => ⟨.OK, some (arrId, acc), some k, h⟩
  | n + 1, s, k, acc, h =>
    match strFind s beginVEventMark with
    | none => ⟨.OK, some (arrId, acc), some k, h⟩
    | some b =>
      let s1 := s.drop b
      match strFind s1 endVEventMark with
      | none => ⟨.OK, some (arrId, acc), some k, h⟩
      | some e =>
        if evDataFail k then
          let h1 := acc.foldl freeEventFieldsH h
          let pEvents : Option Nat := none
          let h2 := hfree h1 pEvents
          ⟨.NO_MEM, none, some 0, h2⟩
        else
          let (dId, h1) := halloc h
          let (ev, h2) := CalDAV_Parse_Event_Block_H h1 (s1.take (e + 10))
          let h3 := hfree h2 (some dId)
          eventsScanAllocF evDataFail arrId n (s1.drop (e + 10)) (k + 1) (acc ++ [ev]) h3

/-- The heap-instrumented body of `CalDAV_Calendar_Events_List`
(caldav_client.cpp lines 722-818): zero events yield an empty OK result;
a failing array `calloc` yields NO_MEM with nothing allocated; otherwise the
array is allocated (id 0 on the fresh heap) and the scan runs. -/
def CalDAV_Events_List_Alloc (arrayFail : Bool) (evDataFail : Nat → Bool)
    (body : List Char) : EventsAllocResult :=
  let h0 : HeapSt := ⟨0, []⟩
  let cnt := countBeginVEvent body
  if cnt = 0 then ⟨.OK, none, some 0, h0⟩
  else if arrayFail then ⟨.NO_MEM, none, none, h0⟩
  else
    let (arrId, h1) := halloc h0
    eventsScanAllocF evDataFail arrId cnt body 0 [] h1

/-- One well-formed VEVENT block. -/
def vEventBlock (content : List Char) : List Char :=
  beginVEventMark ++ content ++ endVEventMark

/-- A response body made of a preamble followed by VEVENT blocks, each
followed by separator text: the shape quantified over in the event-count
claims. -/
def mkEventsBody (pre : List Char) (blocks : List (List Char × List Char)) : List Char :=
  pre ++ (blocks.map (fun b => vEventBlock b.1 ++ b.2)).flatten

/-- Concrete counterexample body for the calendar-discovery claim: one
response block whose resourcetype carries the unprefixed calendar marker and
no ":calendar" occurrence anywhere. -/
def c4Body : List Char :=
  str "<multistatus><response><href>/cal/home/</href><propstat><prop><resourcetype><calendar/></resourcetype></prop></propstat></response></multistatus>"

/-- Server URL for the principal-fallback scenario. -/
def c5ServerURL : List Char := str "https://h/p/"

/-- Multistatus body whose single response block is a principal resource with
href "/p/", while a prefixed calendar tag elsewhere makes the pre-count
positive; the fallback URL built from it equals the original URL. -/
def c5Body : List Char :=
  str "<x><C:calendar/></x><response><href>/p/</href><propstat><prop><resourcetype><principal/></resourcetype></prop></propstat></response>"

/-- A server that answers every URL with status 207 and the self-pointing
principal body. -/
def c5Transport : List Char → TransportResult :=
  fun _ => ⟨false, 207, some c5Body⟩

/-- Event body with two well-formed VEVENT blocks, used for the allocation
failure scenario. -/
def c7Body : List Char :=
  str "BEGIN:VEVENT\r\nUID:1@x\r\nSUMMARY:a\r\nEND:VEVENT\r\nBEGIN:VEVENT\r\nUID:2@x\r\nSUMMARY:b\r\nEND:VEVENT\r\n"

/-- Allocation oracle failing exactly at the second `EventData` allocation
(after one record has been populated). -/
def c7FailAt : Nat → Bool := fun k => k == 1

/-- Concrete preamble for the event-extraction witness. -/
def c6Pre : List Char := str "<?xml version=1.0?> noise "

/-- Concrete block list for the event-extraction witness. -/
def c6Blocks : List (List Char × List Char) :=
  [(str "\r\nUID:1@x\r\nSUMMARY:Alpha\r\n", str "\r\n"),
   (str "\r\nUID:2@x\r\nSUMMARY:Beta\r\n", str "\r\n")]

/-- Concrete truncated tail for the event-extraction witness. -/
def c6Tail : List Char := str "\r\nSUMMARY:Truncated\r\n"

/-! Generic lemmas about the text-search primitives. -/

theorem strFind_of_isPrefixOf (hay n : List Char) (h : n.isPrefixOf hay = true) :
    strFind hay n = some 0 := by
  cases hay <;> simp [strFind, h]

theorem isPrefixOf_self_append (n t : List Char) : n.isPrefixOf (n ++ t) = true := by
  rw [ List.isPrefixOf_iff_prefix]
  exact List.prefix_append n t

theorem strFind_self_append (n t : List Char) : strFind (n ++ t) n = some 0 :=
  strFind_of_isPrefixOf (n ++ t) n (isPrefixOf_self_append n t)

theorem strFind_cons_none (c : Char) (t n : List Char) (h : strFind (c :: t) n = none) :
    ¬ (n.isPrefixOf (c :: t) = true) ∧ strFind t n = none := by
  by_cases hp : n.isPrefixOf (c :: t) = true
  · simp [strFind, hp] at h
  · refine ⟨hp, ?_⟩
    simp only [strFind, if_neg hp] at h
    cases he : strFind t n with
    | none => rfl
    | some v => rw [he] at h; simp at h

theorem take_prefix_of_prefix_append (l xs ys : List Char) (h : l <+: xs ++ ys) :
    l.take xs.length <+: xs := by
  obtain ⟨w, hw⟩ := h
  have h2 := congrArg (List.take xs.length) hw
  rw [List.take_append_eq_append_take, List.take_left] at h2
  exact ⟨w.take (xs.length - l.length), h2⟩

theorem prefix_of_append_of_length_le (l xs ys : List Char) (h : l <+: xs ++ ys)
    (hl : l.length ≤ xs.length) : l <+: xs := by
  have h2 := take_prefix_of_prefix_append l xs ys h
  rwa [List.take_of_length_le hl] at h2

theorem strFind_append_of_none (xs ys n : List Char) (h1 : strFind xs n = none)
    (h2 : ∀ k, 0 < k → k < n.length → ¬ n.drop k <+: ys) :
    strFind (xs ++ ys) n = (strFind ys n).map (xs.length + ·) := by
  induction xs with
  | nil =>
    cases he : strFind ys n <;> simp [he]
  | cons c xs ih =>
    obtain ⟨hnp, h1t⟩ := strFind_cons_none c xs n h1
    have hnp2 : ¬ (n.isPrefixOf (c :: (xs ++ ys)) = true) := by
      rw [ List.isPrefixOf_iff_prefix]
      intro hpre
      rw [← List.cons_append] at hpre
      by_cases hlen : n.length ≤ (c :: xs).length
      · exact hnp (by
          rw [ List.isPrefixOf_iff_prefix]
          exact prefix_of_append_of_length_le n (c :: xs) ys hpre hlen)
      · push_neg at hlen
        apply h2 (c :: xs).length (by simp) hlen
        obtain ⟨w, hw⟩ := hpre
        refine ⟨w, ?_⟩
        have hd := congrArg (List.drop (c :: xs).length) hw
        rw [List.drop_append_of_le_length (le_of_lt hlen), List.drop_left] at hd
        exact hd
    rw [List.cons_append]
    simp only [strFind, if_neg hnp2]
    rw [ih h1t]
    cases strFind ys n <;> simp <;> omega

theorem strFind_append_of_none_sfx (xs ys n : List Char) (h1 : strFind xs n = none)
    (h2 : ∀ k, 0 < k → k < n.length → ¬ n.take k <:+ xs) :
    strFind (xs ++ ys) n = (strFind ys n).map (xs.length + ·) := by
  induction xs with
  | nil =>
    cases he : strFind ys n <;> simp [he]
  | cons c xs ih =>
    obtain ⟨hnp, h1t⟩ := strFind_cons_none c xs n h1
    have hnp2 : ¬ (n.isPrefixOf (c :: (xs ++ ys)) = true) := by
      rw [ List.isPrefixOf_iff_prefix]
      intro hpre
      rw [← List.cons_append] at hpre
      by_cases hlen : n.length ≤ (c :: xs).length
      · exact hnp (by
          rw [ List.isPrefixOf_iff_prefix]
          exact prefix_of_append_of_length_le n (c :: xs) ys hpre hlen)
      · push_neg at hlen
        apply h2 (c :: xs).length (by simp) hlen
        obtain ⟨w, hw⟩ := hpre
        have ht := congrArg (List.take (c :: xs).length) hw
        rw [List.take_append_eq_append_take,
          Nat.sub_eq_zero_of_le (le_of_lt hlen), List.take_zero, List.append_nil,
          List.take_left] at ht
        rw [ht]
    have hsfx : ∀ k, 0 < k → k < n.length → ¬ n.take k <:+ xs := by
      intro k hk hkl hs
      exact h2 k hk hkl (hs.trans ⟨[c], rfl⟩)
    rw [List.cons_append]
    simp only [strFind, if_neg hnp2]
    rw [ih h1t hsfx]
    cases strFind ys n <;> simp <;> omega

theorem no_straddle_of_take (n m : List Char)
    (H : ∀ k, 0 < k → k < n.length → ¬ ((n.drop k).take m.length <+: m)) :
    ∀ rest k, 0 < k → k < n.length → ¬ n.drop k <+: m ++ rest := by
  intro rest k hk hkl hpre
  exact H k hk hkl (take_prefix_of_prefix_append (n.drop k) m rest hpre)

theorem findCharIdx_append_of_none (cs l1 l2 : List Char)
    (h : ∀ c ∈ l1, cs.contains c = false) :
    findCharIdx cs (l1 ++ l2) = (findCharIdx cs l2).map (l1.length + ·) := by
  induction l1 with
  | nil => cases he : findCharIdx cs l2 <;> simp [he]
  | cons c t ih =>
    have hc : cs.contains c = false := h c (List.mem_cons_self c t)
    have ht : ∀ x ∈ t, cs.contains x = false := fun x hx => h x (List.mem_cons_of_mem c hx)
    rw [List.cons_append]
    simp only [findCharIdx, hc]
    rw [if_neg (by simp), ih ht]
    cases findCharIdx cs l2 <;> simp <;> omega

theorem findCharIdx_eq_none (cs l : List Char) (h : ∀ c ∈ l, cs.contains c = false) :
    findCharIdx cs l = none := by
  have h2 := findCharIdx_append_of_none cs l [] h
  simpa [findCharIdx] using h2

theorem findCharIdx_cons_of_mem (cs : List Char) (c : Char) (t : List Char)
    (h : cs.contains c = true) : findCharIdx cs (c :: t) = some 0 := by
  simp only [findCharIdx]
  rw [if_pos h]

theorem mem_of_getLast?_eq_some (l : List Char) (c : Char) (h : l.getLast? = some c) :
    c ∈ l := by
  have hx : c ∈ l.getLast? := by rw [h]; rfl
  obtain ⟨hne, hc⟩ := List.mem_getLast?_eq_getLast hx
  rw [hc]
  exact List.getLast_mem hne

/-- Claim C1, counterexample: the claim states that every operation returns
CONNECTION_ERROR on transport failure and that ListEvents returns OK exactly
for status 207.  In the code, `CalDAV_Calendars_List` returns HTTP on
transport failure (caldav_client.cpp line 344), and
`CalDAV_Calendar_Events_List` accepts status 200 as well
(caldav_client.cpp line 703): here it returns OK for a bodied 200 response. -/
theorem c1_counterexample :
    CalDAV_Calendars_List_Step [] ⟨true, 0, none⟩ = .ret .HTTP [] ∧
    CalDAV_Error.HTTP ≠ CalDAV_Error.CONNECTION ∧
    CalDAV_Calendar_Events_List ⟨false, 200, some []⟩ = (.OK, some []) := by
  decide

/-- Claim C1 (amended): `CalDAV_Test_Connection` maps transport failure to
CONNECTION_ERROR and returns OK exactly for status 200, 204 or 207; the two
listing operations map transport failure to HTTP_ERROR (not CONNECTION_ERROR),
and both gate parsing on status 200 or 207, returning HTTP_ERROR for every
other status. -/
theorem c1_status_interpreter_amended :
    (∀ s b, CalDAV_Test_Connection ⟨true, s, b⟩ = .CONNECTION) ∧
    (∀ s b, CalDAV_Test_Connection ⟨false, s, b⟩ = .OK ↔ (s = 200 ∨ s = 204 ∨ s = 207)) ∧
    (∀ url s b, CalDAV_Calendars_List_Step url ⟨true, s, b⟩ = .ret .HTTP []) ∧
    (∀ url s b, s ≠ 200 → s ≠ 207 →
      CalDAV_Calendars_List_Step url ⟨false, s, b⟩ = .ret .HTTP []) ∧
    (∀ s b, CalDAV_Calendar_Events_List ⟨true, s, b⟩ = (.HTTP, none)) ∧
    (∀ s b, s ≠ 200 → s ≠ 207 →
      CalDAV_Calendar_Events_List ⟨false, s, b⟩ = (.HTTP, none)) := by
  refine ⟨fun s b => rfl, fun s b => ?_, fun url s b => rfl, fun url s b h1 h2 => ?_,
    fun s b => rfl, fun s b h1 h2 => ?_⟩
  · simp only [CalDAV_Test_Connection]
    split_ifs with hf hs h401 <;> simp_all
  · simp only [CalDAV_Calendars_List_Step]
    simp [h1, h2]
  · simp only [CalDAV_Calendar_Events_List]
    simp [h1, h2]

/-- Claim C1, witness: the amended theorem applied at status 404. -/
theorem c1_witness :
    CalDAV_Calendars_List_Step [] ⟨false, 404, none⟩ = .ret .HTTP [] ∧
    CalDAV_Calendar_Events_List ⟨false, 404, none⟩ = (.HTTP, none) :=
  ⟨c1_status_interpreter_amended.2.2.2.1 [] 404 none (by decide) (by decide),
   c1_status_interpreter_amended.2.2.2.2.2 404 none (by decide) (by decide)⟩

/-- Claim C8: every response body containing one of the HTML markers makes
calendar discovery return HTTP_ERROR with an empty calendar list (and no
recorded principal), regardless of any other content
(caldav_client.cpp lines 369-379). -/
theorem c8_html_guard (body : List Char)
    (h : containsSub body (str "<!DOCTYPE html>") = true ∨
      containsSub body (str "<html>") = true ∨ containsSub body (str "<html ") = true) :
    CalDAV_Calendars_Parse body = ⟨.HTTP, [], []⟩ := by
  unfold CalDAV_Calendars_Parse
  rcases h with h | h | h <;> simp [h]

/-- Claim C8, witness: the HTML guard applied to a login page body that also
contains a calendar-looking response block. -/
theorem c8_witness :
    CalDAV_Calendars_Parse
      (str "<!DOCTYPE html><response><resourcetype><C:calendar/></resourcetype></response>") =
      ⟨.HTTP, [], []⟩ :=
  c8_html_guard _ (by decide)

/-- Claim C10: with a successful exchange at an accepted status but no body
bytes delivered (response buffer never allocated), `CalDAV_Calendars_List`
returns OK with an empty list (caldav_client.cpp lines 550-555) while
`CalDAV_Calendar_Events_List` returns HTTP_ERROR without touching its outputs
(caldav_client.cpp lines 714-720). -/
theorem c10_bodyless_asymmetry (url : List Char) (s : Nat) (h : s = 200 ∨ s = 207) :
    CalDAV_Calendars_List_Step url ⟨false, s, none⟩ = .ret .OK [] ∧
    CalDAV_Calendar_Events_List ⟨false, s, none⟩ = (.HTTP, none) := by
  rcases h with h | h <;> subst h <;>
    exact ⟨by simp [CalDAV_Calendars_List_Step], by simp [CalDAV_Calendar_Events_List]⟩

/-- Claim C10, witness: the asymmetry at status 207. -/
theorem c10_witness :
    CalDAV_Calendars_List_Step [] ⟨false, 207, none⟩ = .ret .OK [] ∧
    CalDAV_Calendar_Events_List ⟨false, 207, none⟩ = (.HTTP, none) :=
  c10_bodyless_asymmetry [] 207 (by decide)

/-- Claim C2, counterexample: for the synthesized line `K:a:b` + CRLF the
claim demands the value `a:b`, but the extractor moves the start past the
first ':' found after the field name, returning only `b`. -/
theorem c2_counterexample :
    CalDAV_Extract_iCal_Field (str "K:a:b\r\n") (str "K:") = str "b" ∧
    CalDAV_Extract_iCal_Field (str "K:a:b\r\n") (str "K:") ≠ str "a:b" := by
  decide

/-- Claim C2 (amended): an absent field yields the absent result, and the
CRLF round trip holds for every line `KEY:VALUE` + CRLF whose VALUE contains
no ':' (the colon-skip that supports parametered fields consumes up to the
first colon before the line break) and no line-break character. -/
theorem c2_field_extractor_amended :
    (∀ data field, strFind data field = none →
      CalDAV_Extract_iCal_Field data field = []) ∧
    (∀ KEY VALUE : List Char, ':' ∉ VALUE → '\r' ∉ VALUE → '\n' ∉ VALUE →
      CalDAV_Extract_iCal_Field (KEY ++ ':' :: (VALUE ++ ['\r', '\n'])) (KEY ++ [':']) =
        VALUE) := by
  constructor
  · intro data field h
    simp [CalDAV_Extract_iCal_Field, h]
  · intro KEY VALUE h1 h2 h3
    have hb : KEY ++ ':' :: (VALUE ++ ['\r', '\n']) =
        (KEY ++ [':']) ++ (VALUE ++ ['\r', '\n']) := (List.append_assoc KEY [':'] _).symm
    rw [hb]
    have hfind : strFind ((KEY ++ [':']) ++ (VALUE ++ ['\r', '\n'])) (KEY ++ [':']) = some 0 :=
      strFind_self_append _ _
    have hdrop : ((KEY ++ [':']) ++ (VALUE ++ ['\r', '\n'])).drop (0 + (KEY ++ [':']).length) =
        VALUE ++ ['\r', '\n'] := by
      rw [Nat.zero_add]
      exact List.drop_left _ _
    have hnocolon : findCharIdx [':'] (VALUE ++ ['\r', '\n']) = none := by
      apply findCharIdx_eq_none
      intro c hc
      rcases List.mem_append.mp hc with hc | hc
      · have hne : ¬ c = ':' := fun h => h1 (h ▸ hc)
        simp [hne]
      · rcases List.mem_cons.mp hc with hc | hc
        · subst hc; decide
        · have : c = '\n' := by simpa using hc
          subst this; decide
    have hnl : findCharIdx ['\n', '\r'] (VALUE ++ ['\r', '\n']) = some VALUE.length := by
      have h0 : findCharIdx ['\n', '\r'] ('\r' :: ['\n']) = some 0 :=
        findCharIdx_cons_of_mem _ _ _ (by decide)
      have := findCharIdx_append_of_none ['\n', '\r'] VALUE ('\r' :: ['\n']) (by
        intro c hc
        have hcr : ¬ c = '\r' := fun h => h2 (h ▸ hc)
        have hcn : ¬ c = '\n' := fun h => h3 (h ▸ hc)
        simp [hcr, hcn])
      rw [h0] at this
      simpa using this
    simp only [CalDAV_Extract_iCal_Field, hfind, findCharFrom, hdrop, hnocolon, hnl,
      Option.map_none', Option.map_some']
    have harith : 0 + (KEY ++ [':']).length + VALUE.length - (0 + (KEY ++ [':']).length) =
        VALUE.length := by omega
    rw [harith]
    have htake2 : (VALUE ++ ['\r', '\n']).take VALUE.length = VALUE := List.take_left _ _
    rw [htake2]
    have hlast : ¬ (VALUE.getLast? = some '\r') := fun h =>
      h2 (mem_of_getLast?_eq_some VALUE '\r' h)
    rw [if_neg hlast]

/-- Claim C2, witness: the amended round trip at KEY = "KEY", VALUE = "VALUE". -/
theorem c2_witness :
    CalDAV_Extract_iCal_Field (str "KEY" ++ ':' :: (str "VALUE" ++ ['\r', '\n']))
      (str "KEY" ++ [':']) = str "VALUE" :=
  c2_field_extractor_amended.2 (str "KEY") (str "VALUE") (by decide) (by decide) (by decide)

/-- A closing tag cannot occur shifted into itself: any nonempty proper
suffix of the closing tag starts with a character other than '<' (given that
the tag name contains no '<'), so it is not a prefix of the closing tag
followed by anything. -/
theorem closeTag_no_straddle (tag rest : List Char) (hlt : '<' ∉ tag) :
    ∀ k, 0 < k → k < ('<' :: '/' :: (tag ++ ['>'])).length →
      ¬ (('<' :: '/' :: (tag ++ ['>'])).drop k <+: ('<' :: '/' :: (tag ++ ['>'])) ++ rest) := by
  intro k hk hkl hpre
  set e := '<' :: '/' :: (tag ++ ['>']) with he
  have hlen : (e.drop k).length = e.length - k := List.length_drop k e
  have hne : e.drop k ≠ [] := by
    intro h0
    rw [h0] at hlen
    simp at hlen
    omega
  obtain ⟨c, t, hct⟩ := List.exists_cons_of_ne_nil hne
  have hc1 : c ∈ e.drop 1 := by
    have hm : c ∈ e.drop k := by rw [hct]; exact List.mem_cons_self _ _
    have hdd : e.drop k = (e.drop 1).drop (k - 1) := by
      rw [List.drop_drop]
      congr 1
      omega
    rw [hdd] at hm
    exact List.mem_of_mem_drop hm
  have hcne : c ≠ '<' := by
    have hdrop1 : e.drop 1 = '/' :: (tag ++ ['>']) := rfl
    rw [hdrop1] at hc1
    rcases List.mem_cons.mp hc1 with h | h
    · subst h; decide
    · rcases List.mem_append.mp h with h | h
      · exact fun hcc => hlt (hcc ▸ h)
      · have : c = '>' := by simpa using h
        subst this; decide
  obtain ⟨w, hw⟩ := hpre
  rw [hct] at hw
  have hhead : c = '<' := by
    have h2 := congrArg List.head? hw
    simpa [he] using h2
  exact hcne hhead

/-- Claim C3, counterexample: for the prefixed rendering
`<D:displayname>X</D:displayname>` the claim demands `X`, but the extractor
searches for the literal closing tag `</displayname>`, which does not occur,
and yields the absent result. -/
theorem c3_counterexample :
    CalDAV_Extract_XML_Tag_Value (str "<D:displayname>X</D:displayname>")
      (str "displayname") = [] ∧
    CalDAV_Extract_XML_Tag_Value (str "<D:displayname>X</D:displayname>")
      (str "displayname") ≠ str "X" := by
  decide

/-- Claim C3 (amended): extraction returns the content for the unprefixed
rendering `<tag>X</tag>` (for any tag name without '<' or '>', any content
without a nested closing tag, and any trailing text), and also when a prefixed
opening tag is paired with an unprefixed closing tag; but when the closing tag
carries a namespace prefix the closing marker is not found and the result is
absent. -/
theorem c3_xml_extractor_amended :
    (∀ tag X post : List Char, '<' ∉ tag → '>' ∉ tag →
      strFind X ('<' :: '/' :: (tag ++ ['>'])) = none →
      CalDAV_Extract_XML_Tag_Value
        (('<' :: (tag ++ ['>'])) ++ X ++ ('<' :: '/' :: (tag ++ ['>'])) ++ post) tag = X) ∧
    CalDAV_Extract_XML_Tag_Value (str "<D:displayname>X</displayname>")
      (str "displayname") = str "X" ∧
    CalDAV_Extract_XML_Tag_Value (str "<ns1:displayname>X</ns1:displayname>")
      (str "displayname") = [] := by
  refine ⟨?_, by decide, by decide⟩
  intro tag X post hlt hgt hX
  have hshape : (('<' :: (tag ++ ['>'])) ++ X ++ ('<' :: '/' :: (tag ++ ['>'])) ++ post) =
      ('<' :: (tag ++ ['>'])) ++ (X ++ (('<' :: '/' :: (tag ++ ['>'])) ++ post)) := by
    simp [List.append_assoc]
  rw [hshape]
  set a := '<' :: (tag ++ ['>']) with ha
  set e := '<' :: '/' :: (tag ++ ['>']) with hee
  set rest := X ++ (e ++ post) with hrest
  have hfind : strFind (a ++ rest) a = some 0 := strFind_self_append _ _
  have hgtpos : findCharIdx ['>'] (a ++ rest) = some (tag.length + 1) := by
    have hshape2 : a ++ rest = '<' :: (tag ++ ('>' :: rest)) := by
      rw [ha]
      simp
    rw [hshape2]
    have hca : (['>'] : List Char).contains '<' = false := by decide
    simp only [findCharIdx, hca]
    rw [if_neg (by simp)]
    have htag := findCharIdx_append_of_none ['>'] tag ('>' :: rest) (by
      intro c hc
      have hne : ¬ c = '>' := fun h => hgt (h ▸ hc)
      simp [hne])
    rw [findCharIdx_cons_of_mem _ _ _ (by decide)] at htag
    rw [htag]
    simp
  have hdropa : (a ++ rest).drop (tag.length + 1 + 1) = rest := by
    apply List.drop_left'
    rw [ha]
    simp
  have hfinde : strFind rest e = some X.length := by
    rw [hrest]
    rw [strFind_append_of_none X (e ++ post) e hX (closeTag_no_straddle tag post hlt)]
    rw [strFind_self_append]
    simp
  have htakeX : rest.take X.length = X := by
    rw [hrest]
    exact List.take_left _ _
  simp only [CalDAV_Extract_XML_Tag_Value]
  rw [← ha, ← hee, hfind]
  simp only [findCharFrom, List.drop_zero, hgtpos, Option.map_some', Nat.zero_add]
  rw [hdropa, hfinde]
  exact htakeX

/-- Claim C3, witness: the amended theorem at tag "displayname", content "X",
trailing text from a realistic multistatus body. -/
theorem c3_witness :
    CalDAV_Extract_XML_Tag_Value
      (('<' :: (str "displayname" ++ ['>'])) ++ str "X" ++
        ('<' :: '/' :: (str "displayname" ++ ['>'])) ++ str "</prop>") (str "displayname") =
      str "X" :=
  c3_xml_extractor_amended.1 (str "displayname") (str "X") (str "</prop>")
    (by decide) (by decide) (by decide)

/-- The response-block loop populates at most `remaining` records. -/
theorem calRespLoopF_length_le :
    ∀ fuel rem s p, (calRespLoopF fuel rem s p).1.length ≤ rem := by
  intro fuel
  induction fuel with
  | zero =>
    intro rem s p
    simp [calRespLoopF]
  | succ f ih =>
    intro rem s p
    cases rem with
    | zero => simp [calRespLoopF]
    | succ r =>
      cases hf : strFind s (str "<response>") with
      | none => simp [calRespLoopF, hf]
      | some rr =>
        cases hg : strFind (s.drop rr) (str "</response>") with
        | none => simp [calRespLoopF, hf, hg]
        | some ee =>
          simp only [calRespLoopF, hf, hg]
          cases hrt : resourceTypeBlock ((s.drop rr).take ee) with
          | none =>
            simpa using ih (r + 1) ((s.drop rr).drop (ee + 1)) p
          | some rtb =>
            by_cases hcal :
                (containsSub rtb calendarNSMark || containsSub rtb (str "<calendar")) = true
            · simp only [hcal, if_true]
              have hrec := ih r ((s.drop rr).drop (ee + 1)) p
              simpa using hrec
            · rw [Bool.not_eq_true] at hcal
              simp only [hcal, Bool.false_eq_true, if_false]
              by_cases hpr : containsSub rtb (str "<principal") = true
              · simp only [hpr, if_true]
                apply ih
              · rw [Bool.not_eq_true] at hpr
                simp only [hpr, Bool.false_eq_true, if_false]
                apply ih

/-- Claim C4, counterexample: `c4Body` holds exactly one `<response>` block
(at index 13) whose resourcetype sub-block contains the unprefixed calendar
marker, yet discovery returns OK with an empty list: the pre-count counts only
prefixed ":calendar" tags, finds zero, and returns before the blocks are ever
classified, so the claimed record is never produced. -/
theorem c4_counterexample :
    CalDAV_Calendars_Parse c4Body = ⟨.OK, [], []⟩ ∧
    countCalTags c4Body = 0 ∧
    strFind c4Body (str "<response>") = some 13 ∧
    containsSub c4Body (str "<resourcetype><calendar/></resourcetype>") = true := by
  decide

/-- Claim C4 (amended): records are populated only while the pre-count of
namespace-prefixed ":calendar" tags is not exhausted: a non-HTML body whose
pre-count is zero (in particular one whose calendar markers are all
unprefixed) yields OK with an empty list, and the number of returned records
never exceeds the pre-count; the reported count is by construction the number
of records actually populated. -/
theorem c4_calendar_count_amended :
    (∀ body,
      containsSub body (str "<!DOCTYPE html>") = false →
      containsSub body (str "<html>") = false →
      containsSub body (str "<html ") = false →
      countCalTags body = 0 →
      CalDAV_Calendars_Parse body = ⟨.OK, [], []⟩) ∧
    (∀ body, (CalDAV_Calendars_Parse body).cals.length ≤ countCalTags body) := by
  constructor
  · intro body hd h1 h2 hc
    unfold CalDAV_Calendars_Parse
    simp [hd, h1, h2, hc]
  · intro body
    unfold CalDAV_Calendars_Parse
    by_cases hg : (containsSub body (str "<!DOCTYPE html>") ||
        containsSub body (str "<html>") || containsSub body (str "<html ")) = true
    · simp [hg]
    · rw [Bool.not_eq_true] at hg
      simp only [hg, Bool.false_eq_true, if_false]
      by_cases hc : countCalTags body = 0
      · simp [hc]
      · simp only [hc, if_false]
        exact calRespLoopF_length_le (body.length + 1) (countCalTags body) body []

/-- Claim C4, witness: the amended theorem on a body with only a plain
collection (empty result), and the record bound on the counterexample body. -/
theorem c4_witness :
    CalDAV_Calendars_Parse
      (str "<response><href>/a/</href><resourcetype><collection/></resourcetype></response>") =
      ⟨.OK, [], []⟩ ∧
    (CalDAV_Calendars_Parse c4Body).cals.length ≤ countCalTags c4Body :=
  ⟨c4_calendar_count_amended.1 _ (by decide) (by decide) (by decide) (by decide),
   c4_calendar_count_amended.2 c4Body⟩

/-- Claim C5, counterexample: with the server whose principal resource points
back to itself, the one discovery round re-runs with the SAME url, and the
operation has not returned after 5 rounds — the claim asserts a single
fallback level and termination even when the principal again yields only a
principal. -/
theorem c5_counterexample :
    CalDAV_Calendars_List_Step c5ServerURL (c5Transport c5ServerURL) =
      .recurse c5ServerURL ∧
    CalDAV_Calendars_List_Run c5Transport 5 c5ServerURL = none := by
  decide

/-- Claim C5 (amended): when a round classifies zero calendars but recorded a
principal path, discovery re-runs the whole algorithm against the URL formed
from the original URL's scheme and host plus the principal path — but with no
depth bound: each such round recurses again, and against the self-pointing
server the operation never returns, for any number of rounds. -/
theorem c5_principal_fallback_amended :
    (∀ transport url body fuel,
      transport url = ⟨false, 207, some body⟩ →
      (CalDAV_Calendars_Parse body).cals = [] →
      (CalDAV_Calendars_Parse body).principal ≠ [] →
      CalDAV_Calendars_List_Run transport (fuel + 1) url =
        CalDAV_Calendars_List_Run transport fuel
          (buildPrincipalURL url (CalDAV_Calendars_Parse body).principal)) ∧
    (∀ fuel, CalDAV_Calendars_List_Run c5Transport fuel c5ServerURL = none) := by
  constructor
  · intro transport url body fuel ht h1 h2
    have hc : (CalDAV_Calendars_Parse body).cals.isEmpty = true := by
      rw [h1]
      rfl
    have hp : (CalDAV_Calendars_Parse body).principal.isEmpty = false := by
      cases hpp : (CalDAV_Calendars_Parse body).principal with
      | nil => exact absurd hpp h2
      | cons a l => rfl
    simp only [CalDAV_Calendars_List_Run, ht, CalDAV_Calendars_List_Step]
    simp [hc, hp]
  · intro fuel
    induction fuel with
    | zero => rfl
    | succ f ih =>
      have hstep : CalDAV_Calendars_List_Step c5ServerURL (c5Transport c5ServerURL) =
          .recurse c5ServerURL := by decide
      simp only [CalDAV_Calendars_List_Run, hstep]
      exact ih

/-- Claim C5, witness: the fallback equation applied at the concrete
self-pointing server with zero further rounds, and divergence at 7 rounds. -/
theorem c5_witness :
    CalDAV_Calendars_List_Run c5Transport 1 c5ServerURL =
      CalDAV_Calendars_List_Run c5Transport 0
        (buildPrincipalURL c5ServerURL (CalDAV_Calendars_Parse c5Body).principal) ∧
    CalDAV_Calendars_List_Run c5Transport 7 c5ServerURL = none :=
  ⟨c5_principal_fallback_amended.1 c5Transport c5ServerURL c5Body 0 rfl (by decide) (by decide),
   c5_principal_fallback_amended.2 7⟩

/-- Claim C7 (code bug): on `c7Body` (two well-formed events) with the
`EventData` allocation for the second record failing, the scan frees the six
field strings of the already-populated record (ids 2 and 3 among them),
stores NULL and length 0 in the outputs and returns OUT_OF_MEMORY — but the
output array itself (allocation id 0) is still live in the final heap: the
code overwrites `*p_Events` with NULL before calling
`CUSTOM_FREE(*p_Events)`, so that free is a no-op on NULL and the array
allocation leaks, contradicting the claimed "releases ... the output array
itself, leaking nothing". -/
theorem c7_alloc_failure_leak :
    CalDAV_Events_List_Alloc false c7FailAt c7Body =
      ⟨.NO_MEM, none, some 0, ⟨4, [0]⟩⟩ ∧
    0 ∈ (CalDAV_Events_List_Alloc false c7FailAt c7Body).heap.live := by
  decide

/-- The doubling loop never shrinks the size. -/
theorem growSizeF_ge (fuel need size : Nat) : size ≤ growSizeF fuel need size := by
  induction fuel generalizing size with
  | zero => simp [growSizeF]
  | succ f ih =>
    simp only [growSizeF]
    by_cases h : need ≥ size
    · rw [if_pos h]
      exact le_trans (by omega) (ih (size * 2))
    · rw [if_neg h]

/-- The doubling loop only ever doubles: the result is `size * 2 ^ k`. -/
theorem growSizeF_pow (fuel need size : Nat) :
    ∃ k, growSizeF fuel need size = size * 2 ^ k := by
  induction fuel generalizing size with
  | zero => exact ⟨0, by simp [growSizeF]⟩
  | succ f ih =>
    simp only [growSizeF]
    by_cases h : need ≥ size
    · rw [if_pos h]
      obtain ⟨k, hk⟩ := ih (size * 2)
      refine ⟨k + 1, ?_⟩
      rw [hk]
      ring
    · rw [if_neg h]
      exact ⟨0, by simp⟩

/-- With enough fuel the doubling loop exceeds `need`. -/
theorem growSizeF_gt (fuel : Nat) : ∀ need size : Nat, 0 < size →
    need < size * 2 ^ fuel → need < growSizeF fuel need size := by
  induction fuel with
  | zero =>
    intro need size hs h
    simpa [growSizeF] using h
  | succ f ih =>
    intro need size hs h
    simp only [growSizeF]
    by_cases h2 : need ≥ size
    · rw [if_pos h2]
      apply ih need (size * 2) (by omega)
      calc need < size * 2 ^ (f + 1) := h
        _ = size * 2 * 2 ^ f := by ring
    · rw [if_neg h2]
      omega

/-- Writing within bounds preserves the length. -/
theorem writeAt_length (mem : List Char) (pos : Nat) (chunk : List Char)
    (h : pos + chunk.length ≤ mem.length) : (writeAt mem pos chunk).length = mem.length := by
  simp [writeAt, List.length_append, List.length_take, List.length_drop]
  omega

/-- Writing at `pos` leaves every shorter prefix unchanged. -/
theorem writeAt_take_of_le (mem : List Char) (pos : Nat) (chunk : List Char) (q : Nat)
    (hq : q ≤ pos) (hp : pos ≤ mem.length) :
    (writeAt mem pos chunk).take q = mem.take q := by
  unfold writeAt
  rw [List.append_assoc]
  rw [List.take_append_of_le_length (by simp; omega)]
  rw [List.take_take]
  congr 1
  omega

/-- Dropping to the write position exposes the written chunk. -/
theorem writeAt_drop_at (mem : List Char) (pos : Nat) (chunk : List Char)
    (hp : pos ≤ mem.length) :
    (writeAt mem pos chunk).drop pos = chunk ++ mem.drop (pos + chunk.length) := by
  unfold writeAt
  rw [List.append_assoc]
  exact List.drop_left' (by simp; omega)

/-- Combined effect of the `memcpy` and the terminator store
(caldav_client.cpp lines 130-132) on a buffer with room for both. -/
theorem write_step (mem2 : List Char) (pos : Nat) (chunk : List Char)
    (hfit : pos + chunk.length < mem2.length) :
    (writeAt (writeAt mem2 pos chunk) (pos + chunk.length) [nullChar]).length = mem2.length ∧
    (writeAt (writeAt mem2 pos chunk) (pos + chunk.length) [nullChar]).getD
      (pos + chunk.length) ' ' = nullChar ∧
    (writeAt (writeAt mem2 pos chunk) (pos + chunk.length) [nullChar]).take pos =
      mem2.take pos ∧
    ((writeAt (writeAt mem2 pos chunk) (pos + chunk.length) [nullChar]).drop pos).take
      chunk.length = chunk := by
  have h1 : pos + chunk.length ≤ mem2.length := le_of_lt hfit
  have hw1len : (writeAt mem2 pos chunk).length = mem2.length := writeAt_length _ _ _ h1
  have h2 : (pos + chunk.length) + [nullChar].length ≤ (writeAt mem2 pos chunk).length := by
    simp [hw1len]
    omega
  have hw2len : (writeAt (writeAt mem2 pos chunk) (pos + chunk.length) [nullChar]).length =
      (writeAt mem2 pos chunk).length := writeAt_length _ _ _ h2
  refine ⟨by rw [hw2len, hw1len], ?_, ?_, ?_⟩
  · have hd := writeAt_drop_at (writeAt mem2 pos chunk) (pos + chunk.length) [nullChar]
      (by omega)
    have hget : (writeAt (writeAt mem2 pos chunk) (pos + chunk.length)
        [nullChar])[pos + chunk.length]? = some nullChar := by
      rw [← List.head?_drop, hd]
      rfl
    simp [List.getD, hget]
  · have hp1 : (writeAt (writeAt mem2 pos chunk) (pos + chunk.length) [nullChar]).take pos =
        (writeAt mem2 pos chunk).take pos :=
      writeAt_take_of_le _ _ _ pos (by omega) (by omega)
    have hp2 : (writeAt mem2 pos chunk).take pos = mem2.take pos :=
      writeAt_take_of_le _ _ _ pos (le_refl pos) (by omega)
    rw [hp1, hp2]
  · have hq1 : (writeAt (writeAt mem2 pos chunk) (pos + chunk.length) [nullChar]).take
        (pos + chunk.length) = (writeAt mem2 pos chunk).take (pos + chunk.length) :=
      writeAt_take_of_le _ _ _ (pos + chunk.length) (le_refl _) (by omega)
    have e1 : ((writeAt (writeAt mem2 pos chunk) (pos + chunk.length) [nullChar]).take
        (pos + chunk.length)).drop pos =
        ((writeAt (writeAt mem2 pos chunk) (pos + chunk.length) [nullChar]).drop pos).take
          chunk.length := by
      rw [List.drop_take]
      congr 1
      omega
    rw [← e1, hq1, List.drop_take]
    have hq2 : (writeAt mem2 pos chunk).drop pos =
        chunk ++ mem2.drop (pos + chunk.length) := writeAt_drop_at _ _ _ (by omega)
    rw [hq2]
    have harith : pos + chunk.length - pos = chunk.length := by omega
    rw [harith]
    exact List.take_left _ _

/-- Claim C9: one data event preserves the accumulator invariant.  Starting
from any buffer whose position is strictly inside its storage, the append
advances the position by the chunk length, keeps it strictly below the (only
ever doubled) capacity, stores a NUL terminator immediately after the written
bytes, preserves all previously written bytes (also across the reallocation),
and writes the chunk at the old position; the first call reduces to an append
on the freshly allocated `bufferLength`-byte buffer at position 0. -/
theorem c9_accumulator_invariant (bufferLength : Nat) (b : HTTP_Response_Buffer)
    (chunk : List Char) (hb : b.position < b.mem.length) :
    (on_HTTP_Event_Handler bufferLength (some b) chunk).position =
      b.position + chunk.length ∧
    (on_HTTP_Event_Handler bufferLength (some b) chunk).position <
      (on_HTTP_Event_Handler bufferLength (some b) chunk).mem.length ∧
    (on_HTTP_Event_Handler bufferLength (some b) chunk).mem.getD
      (b.position + chunk.length) ' ' = nullChar ∧
    (on_HTTP_Event_Handler bufferLength (some b) chunk).mem.take b.position =
      b.mem.take b.position ∧
    ((on_HTTP_Event_Handler bufferLength (some b) chunk).mem.drop b.position).take
      chunk.length = chunk ∧
    (∃ k, (on_HTTP_Event_Handler bufferLength (some b) chunk).mem.length =
      b.mem.length * 2 ^ k) ∧
    on_HTTP_Event_Handler bufferLength none chunk =
      on_HTTP_Event_Handler bufferLength
        (some ⟨List.replicate bufferLength uninitChar, 0⟩) chunk := by
  by_cases hgrow : b.position + chunk.length ≥ b.mem.length
  · set newSize := growSizeF (b.position + chunk.length + 1) (b.position + chunk.length)
      (b.mem.length * 2) with hns
    have hfitn : b.position + chunk.length < newSize := by
      apply growSizeF_gt
      · omega
      · have hx : b.position + chunk.length < 2 ^ (b.position + chunk.length) :=
          Nat.lt_two_pow _
        have hy : (2 : Nat) ^ (b.position + chunk.length) ≤
            2 ^ (b.position + chunk.length + 1) :=
          Nat.pow_le_pow_right (by omega) (by omega)
        have hz : (2 : Nat) ^ (b.position + chunk.length + 1) ≤
            (b.mem.length * 2) * 2 ^ (b.position + chunk.length + 1) :=
          Nat.le_mul_of_pos_left _ (by omega)
        omega
    have hge2 : b.mem.length * 2 ≤ newSize := growSizeF_ge _ _ _
    set mem2 := b.mem ++ List.replicate (newSize - b.mem.length) uninitChar with hm2
    have hm2len : mem2.length = newSize := by
      rw [hm2]
      simp [List.length_append, List.length_replicate]
      omega
    have hred : on_HTTP_Event_Handler bufferLength (some b) chunk =
        ⟨writeAt (writeAt mem2 b.position chunk) (b.position + chunk.length) [nullChar],
          b.position + chunk.length⟩ := by
      simp only [on_HTTP_Event_Handler]
      rw [if_pos hgrow]
    obtain ⟨hlen, hterm, hpre, hchunk⟩ := write_step mem2 b.position chunk (by omega)
    rw [hred]
    refine ⟨rfl, ?_, hterm, ?_, hchunk, ?_, rfl⟩
    · show b.position + chunk.length <
        (writeAt (writeAt mem2 b.position chunk) (b.position + chunk.length)
          [nullChar]).length
      omega
    · rw [hpre, hm2]
      exact List.take_append_of_le_length (by omega)
    · obtain ⟨j, hj⟩ := growSizeF_pow (b.position + chunk.length + 1)
        (b.position + chunk.length) (b.mem.length * 2)
      refine ⟨j + 1, ?_⟩
      show (writeAt (writeAt mem2 b.position chunk) (b.position + chunk.length)
          [nullChar]).length = b.mem.length * 2 ^ (j + 1)
      rw [hlen, hm2len, hns, hj]
      ring
  · push_neg at hgrow
    have hred : on_HTTP_Event_Handler bufferLength (some b) chunk =
        ⟨writeAt (writeAt b.mem b.position chunk) (b.position + chunk.length) [nullChar],
          b.position + chunk.length⟩ := by
      simp only [on_HTTP_Event_Handler]
      rw [if_neg (by omega)]
    obtain ⟨hlen, hterm, hpre, hchunk⟩ := write_step b.mem b.position chunk hgrow
    rw [hred]
    refine ⟨rfl, ?_, hterm, hpre, hchunk, ⟨0, by simpa using hlen⟩, rfl⟩
    show b.position + chunk.length <
      (writeAt (writeAt b.mem b.position chunk) (b.position + chunk.length)
        [nullChar]).length
    omega

/-- Claim C9, witness: the invariant theorem applied to the buffer obtained
from a first 5-byte chunk on an 8-byte allocation, appending 6 more bytes
(which forces one reallocation round). -/
theorem c9_witness :
    (on_HTTP_Event_Handler 8 (some (on_HTTP_Event_Handler 8 none (str "abcde")))
      (str "fghijk")).position = 5 + (str "fghijk").length ∧
    ((on_HTTP_Event_Handler 8 (some (on_HTTP_Event_Handler 8 none (str "abcde")))
      (str "fghijk")).mem.drop 5).take (str "fghijk").length = str "fghijk" := by
  have h := c9_accumulator_invariant 8 (on_HTTP_Event_Handler 8 none (str "abcde"))
    (str "fghijk") (by decide)
  have hpos : (on_HTTP_Event_Handler 8 none (str "abcde")).position = 5 := by decide
  refine ⟨?_, ?_⟩
  · rw [h.1, hpos]
  · have h5 := h.2.2.2.2.1
    rw [hpos] at h5
    exact h5

/-- Length of the BEGIN marker. -/
theorem beginVEventMark_length : beginVEventMark.length = 12 := rfl

/-- Length of the END marker. -/
theorem endVEventMark_length : endVEventMark.length = 10 := rfl

/-- The marker BEGIN:VEVENT has no nontrivial border: no proper suffix of it,
cut to the marker length, is a prefix of it. -/
theorem bM_bM_guard : ∀ k, 0 < k → k < beginVEventMark.length →
    ¬ (beginVEventMark.drop k).take beginVEventMark.length <+: beginVEventMark := by
  intro k h1 h2
  rw [beginVEventMark_length] at h2
  exact (by decide : ∀ k, k < 12 → 0 < k →
    ¬ (beginVEventMark.drop k).take beginVEventMark.length <+: beginVEventMark) k h2 h1

/-- The marker END:VEVENT has no nontrivial border. -/
theorem eM_eM_guard : ∀ k, 0 < k → k < endVEventMark.length →
    ¬ (endVEventMark.drop k).take endVEventMark.length <+: endVEventMark := by
  intro k h1 h2
  rw [endVEventMark_length] at h2
  exact (by decide : ∀ k, k < 10 → 0 < k →
    ¬ (endVEventMark.drop k).take endVEventMark.length <+: endVEventMark) k h2 h1

/-- No proper suffix of BEGIN:VEVENT, cut to the END marker length, is a
prefix of END:VEVENT. -/
theorem bM_eM_guard : ∀ k, 0 < k → k < beginVEventMark.length →
    ¬ (beginVEventMark.drop k).take endVEventMark.length <+: endVEventMark := by
  intro k h1 h2
  rw [beginVEventMark_length] at h2
  exact (by decide : ∀ k, k < 12 → 0 < k →
    ¬ (beginVEventMark.drop k).take endVEventMark.length <+: endVEventMark) k h2 h1

/-- No proper prefix of END:VEVENT is a suffix of BEGIN:VEVENT. -/
theorem eM_sfx_bM_guard : ∀ k, 0 < k → k < endVEventMark.length →
    ¬ endVEventMark.take k <:+ beginVEventMark := by
  intro k h1 h2
  rw [endVEventMark_length] at h2
  exact (by decide : ∀ k, k < 10 → 0 < k →
    ¬ endVEventMark.take k <:+ beginVEventMark) k h2 h1

/-- No proper prefix of BEGIN:VEVENT is a suffix of END:VEVENT. -/
theorem bM_sfx_eM_guard : ∀ k, 0 < k → k < beginVEventMark.length →
    ¬ beginVEventMark.take k <:+ endVEventMark := by
  intro k h1 h2
  rw [beginVEventMark_length] at h2
  exact (by decide : ∀ k, k < 12 → 0 < k →
    ¬ beginVEventMark.take k <:+ endVEventMark) k h2 h1

/-- In well-placed text, the first BEGIN:VEVENT occurrence is the literal one:
no occurrence hides in `pre` and none straddles the boundary. -/
theorem strFind_pre_bM (pre X : List Char) (hp : strFind pre beginVEventMark = none) :
    strFind (pre ++ (beginVEventMark ++ X)) beginVEventMark = some pre.length := by
  rw [strFind_append_of_none pre (beginVEventMark ++ X) beginVEventMark hp
    (no_straddle_of_take beginVEventMark beginVEventMark bM_bM_guard X)]
  rw [strFind_self_append]
  simp

/-- Dropping past the first block marker. -/
theorem drop_pre_bM (pre X : List Char) :
    (pre ++ (beginVEventMark ++ X)).drop (pre.length + 12) = X := by
  rw [← List.append_assoc]
  apply List.drop_left'
  simp [beginVEventMark_length]

/-- No END:VEVENT occurs in BEGIN:VEVENT followed by END-free text. -/
theorem strFind_eMnone_bMc (c : List Char) (hc : strFind c endVEventMark = none) :
    strFind (beginVEventMark ++ c) endVEventMark = none := by
  rw [strFind_append_of_none_sfx beginVEventMark c endVEventMark (by decide) eM_sfx_bM_guard]
  rw [hc]
  rfl

/-- No BEGIN:VEVENT occurs in `c ++ END:VEVENT ++ s` when `c` and `s` are
BEGIN-free. -/
theorem strFind_bMfree_cons (c s : List Char) (hc : strFind c beginVEventMark = none)
    (hs : strFind s beginVEventMark = none) :
    strFind (c ++ (endVEventMark ++ s)) beginVEventMark = none := by
  have h1 : strFind (endVEventMark ++ s) beginVEventMark = none := by
    rw [strFind_append_of_none_sfx endVEventMark s beginVEventMark (by decide) bM_sfx_eM_guard]
    rw [hs]
    rfl
  rw [strFind_append_of_none c (endVEventMark ++ s) beginVEventMark hc
    (no_straddle_of_take beginVEventMark endVEventMark bM_eM_guard s)]
  rw [h1]
  rfl

/-- The first END:VEVENT in a block suffix is the block's own end marker. -/
theorem strFind_block_eM (c Z : List Char) (hc : strFind c endVEventMark = none) :
    strFind (beginVEventMark ++ (c ++ (endVEventMark ++ Z))) endVEventMark =
      some (12 + c.length) := by
  have hshape : beginVEventMark ++ (c ++ (endVEventMark ++ Z)) =
      (beginVEventMark ++ c) ++ (endVEventMark ++ Z) := by
    simp [List.append_assoc]
  rw [hshape]
  rw [strFind_append_of_none (beginVEventMark ++ c) (endVEventMark ++ Z) endVEventMark
    (strFind_eMnone_bMc c hc)
    (no_straddle_of_take endVEventMark endVEventMark eM_eM_guard Z)]
  rw [strFind_self_append]
  simp [beginVEventMark_length]

/-- Taking through the end marker slices out exactly the block. -/
theorem take_block (c Z : List Char) :
    (beginVEventMark ++ (c ++ (endVEventMark ++ Z))).take (12 + c.length + 10) =
      vEventBlock c := by
  have hshape : beginVEventMark ++ (c ++ (endVEventMark ++ Z)) =
      (beginVEventMark ++ c ++ endVEventMark) ++ Z := by
    simp [List.append_assoc]
  rw [hshape]
  rw [List.take_left' (by simp [beginVEventMark_length, endVEventMark_length]; omega)]
  rfl

/-- Dropping past the end marker exposes the remaining text. -/
theorem drop_block (c Z : List Char) :
    (beginVEventMark ++ (c ++ (endVEventMark ++ Z))).drop (12 + c.length + 10) = Z := by
  have hshape : beginVEventMark ++ (c ++ (endVEventMark ++ Z)) =
      (beginVEventMark ++ c ++ endVEventMark) ++ Z := by
    simp [List.append_assoc]
  rw [hshape]
  apply List.drop_left'
  simp [beginVEventMark_length, endVEventMark_length]
  omega

/-- One unfolding of the counting loop when a BEGIN marker is found. -/
theorem countBeginF_succ_found (f : Nat) (s : List Char) (b : Nat)
    (h : strFind s beginVEventMark = some b) :
    countBeginF (f + 1) s = 1 + countBeginF f (s.drop (b + 12)) := by
  simp only [countBeginF, h]

/-- BEGIN-free text makes the counting loop stop with zero, at any fuel. -/
theorem countBeginF_none (tail : List Char) (h : strFind tail beginVEventMark = none) :
    ∀ fuel, countBeginF fuel tail = 0 := by
  intro fuel
  cases fuel with
  | zero => rfl
  | succ f => simp only [countBeginF, h]

/-- One unfolding of the scan loop when both markers are found. -/
theorem eventsScanF_succ_found (n : Nat) (s : List Char) (b e : Nat)
    (h1 : strFind s beginVEventMark = some b)
    (h2 : strFind (s.drop b) endVEventMark = some e) :
    eventsScanF (n + 1) s =
      CalDAV_Parse_Event_Block ((s.drop b).take (e + 10)) ::
        eventsScanF n ((s.drop b).drop (e + 10)) := by
  simp only [eventsScanF, h1, h2]

/-- The scan stops on a BEGIN marker with no matching END marker. -/
theorem eventsScanF_succ_noend (n : Nat) (s : List Char) (b : Nat)
    (h1 : strFind s beginVEventMark = some b)
    (h2 : strFind (s.drop b) endVEventMark = none) :
    eventsScanF (n + 1) s = [] := by
  simp only [eventsScanF, h1, h2]

/-- The scan stops on BEGIN-free text, at any fuel. -/
theorem eventsScanF_nofind (s : List Char) (h : strFind s beginVEventMark = none) :
    ∀ fuel, eventsScanF fuel s = [] := by
  intro fuel
  cases fuel with
  | zero => rfl
  | succ f => simp only [eventsScanF, h]

/-- Each rendered block is nonempty, so the flattened body has at least one
character per block. -/
theorem blocks_length_le_flatten (blocks : List (List Char × List Char)) :
    blocks.length ≤ ((blocks.map (fun b => vEventBlock b.1 ++ b.2)).flatten).length := by
  induction blocks with
  | nil => simp
  | cons b bs ih =>
    simp only [List.map_cons, List.flatten_cons, List.length_append, List.length_cons]
    have h1 : 1 ≤ (vEventBlock b.1).length := by
      simp only [vEventBlock, List.length_append, beginVEventMark_length, endVEventMark_length]
      omega
    omega

/-- A structured events body has at least one character per block. -/
theorem blocks_length_le_mk (pre : List Char) (blocks : List (List Char × List Char)) :
    blocks.length ≤ (mkEventsBody pre blocks).length := by
  unfold mkEventsBody
  simp only [List.length_append]
  have h := blocks_length_le_flatten blocks
  omega

/-- The counting loop on a preamble, well-formed blocks and a residue counts
one occurrence per block plus the residue's count (the residue's behavior is
passed as a continuation invariant). -/
theorem countBeginF_joined :
    ∀ (blocks : List (List Char × List Char)) (pre rest : List Char) (extra K : Nat),
      strFind pre beginVEventMark = none →
      (∀ b ∈ blocks, strFind b.1 beginVEventMark = none ∧
        strFind b.1 endVEventMark = none ∧ strFind b.2 beginVEventMark = none ∧
        strFind b.2 endVEventMark = none) →
      (∀ pre2 extra2, strFind pre2 beginVEventMark = none →
        countBeginF (extra2 + 1) (pre2 ++ rest) = K) →
      countBeginF (blocks.length + 1 + extra)
        (pre ++ ((blocks.map (fun b => vEventBlock b.1 ++ b.2)).flatten ++ rest)) =
        blocks.length + K := by
  intro blocks
  induction blocks with
  | nil =>
    intro pre rest extra K hp hb hcont
    simp only [List.length_nil, List.map_nil, List.flatten_nil, List.nil_append]
    have hfuel : 0 + 1 + extra = extra + 1 := by omega
    rw [hfuel, hcont pre extra hp]
    omega
  | cons b bs ih =>
    intro pre rest extra K hp hb hcont
    obtain ⟨hb1, hb2, hb3, hb4⟩ := hb b (List.mem_cons_self b bs)
    have hbs := fun x hx => hb x (List.mem_cons_of_mem b hx)
    have hshape : pre ++ (((b :: bs).map (fun b => vEventBlock b.1 ++ b.2)).flatten ++ rest) =
        pre ++ (beginVEventMark ++ (b.1 ++ (endVEventMark ++
          (b.2 ++ ((bs.map (fun b => vEventBlock b.1 ++ b.2)).flatten ++ rest))))) := by
      simp [vEventBlock, List.append_assoc]
    have hfuel : (b :: bs).length + 1 + extra = (bs.length + 1 + extra) + 1 := by
      simp only [List.length_cons]
      omega
    rw [hshape, hfuel]
    rw [countBeginF_succ_found _ _ _ (strFind_pre_bM _ _ hp)]
    rw [drop_pre_bM]
    have hshape2 : b.1 ++ (endVEventMark ++
        (b.2 ++ ((bs.map (fun b => vEventBlock b.1 ++ b.2)).flatten ++ rest))) =
        (b.1 ++ (endVEventMark ++ b.2)) ++
          ((bs.map (fun b => vEventBlock b.1 ++ b.2)).flatten ++ rest) := by
      simp [List.append_assoc]
    rw [hshape2]
    rw [ih (b.1 ++ (endVEventMark ++ b.2)) rest extra K
      (strFind_bMfree_cons _ _ hb1 hb3) hbs hcont]
    simp only [List.length_cons]
    omega

/-- The scan loop on a preamble, well-formed blocks and a residue parses one
record per block, in order, followed by whatever the residue yields (passed
as a continuation invariant). -/
theorem eventsScanF_joined :
    ∀ (blocks : List (List Char × List Char)) (pre : List Char) (extra : Nat)
      (rest : List Char) (tailRecs : List CalDAV_Calendar_Event),
      strFind pre beginVEventMark = none →
      (∀ b ∈ blocks, strFind b.1 beginVEventMark = none ∧
        strFind b.1 endVEventMark = none ∧ strFind b.2 beginVEventMark = none ∧
        strFind b.2 endVEventMark = none) →
      (∀ pre2, strFind pre2 beginVEventMark = none →
        eventsScanF extra (pre2 ++ rest) = tailRecs) →
      eventsScanF (blocks.length + extra)
        (pre ++ ((blocks.map (fun b => vEventBlock b.1 ++ b.2)).flatten ++ rest)) =
        blocks.map (fun b => CalDAV_Parse_Event_Block (vEventBlock b.1)) ++ tailRecs := by
  intro blocks
  induction blocks with
  | nil =>
    intro pre extra rest tailRecs hp hb hcont
    simp only [List.length_nil, List.map_nil, List.flatten_nil, List.nil_append,
      Nat.zero_add]
    exact hcont pre hp
  | cons b bs ih =>
    intro pre extra rest tailRecs hp hb hcont
    obtain ⟨hb1, hb2, hb3, hb4⟩ := hb b (List.mem_cons_self b bs)
    have hbs := fun x hx => hb x (List.mem_cons_of_mem b hx)
    have hshape : pre ++ (((b :: bs).map (fun b => vEventBlock b.1 ++ b.2)).flatten ++ rest) =
        pre ++ (beginVEventMark ++ (b.1 ++ (endVEventMark ++
          (b.2 ++ ((bs.map (fun b => vEventBlock b.1 ++ b.2)).flatten ++ rest))))) := by
      simp [vEventBlock, List.append_assoc]
    have hfuel : (b :: bs).length + extra = (bs.length + extra) + 1 := by
      simp only [List.length_cons]
      omega
    rw [hshape, hfuel]
    have hdrop1 : (pre ++ (beginVEventMark ++ (b.1 ++ (endVEventMark ++
        (b.2 ++ ((bs.map (fun b => vEventBlock b.1 ++ b.2)).flatten ++ rest)))))).drop
          pre.length =
        beginVEventMark ++ (b.1 ++ (endVEventMark ++
          (b.2 ++ ((bs.map (fun b => vEventBlock b.1 ++ b.2)).flatten ++ rest)))) :=
      List.drop_left _ _
    have hfe : strFind ((pre ++ (beginVEventMark ++ (b.1 ++ (endVEventMark ++
        (b.2 ++ ((bs.map (fun b => vEventBlock b.1 ++ b.2)).flatten ++ rest)))))).drop
          pre.length) endVEventMark = some (12 + b.1.length) := by
      rw [hdrop1]
      exact strFind_block_eM b.1 _ hb2
    rw [eventsScanF_succ_found _ _ pre.length (12 + b.1.length)
      (strFind_pre_bM _ _ hp) hfe]
    rw [hdrop1]
    rw [take_block, drop_block]
    rw [ih b.2 extra rest tailRecs hb3 hbs hcont]
    simp

/-- Claim C6: event extraction yields one record per well-formed
BEGIN:VEVENT/END:VEVENT block, in source order, with result OK.
Part 1: a body with zero BEGIN:VEVENT occurrences yields an empty OK list.
Part 2: a body made of a BEGIN-free preamble and well-formed blocks (contents
and separators free of both markers) yields exactly the blocks' records, in
order, with OK.  Part 3: the same body followed by a trailing BEGIN:VEVENT
with no matching END:VEVENT yields the same records with OK — the truncated
block stops the scan early; partial results are not an error. -/
theorem c6_event_extraction :
    (∀ body, countBeginVEvent body = 0 → CalDAV_Events_Parse body = (.OK, [])) ∧
    (∀ (pre : List Char) (blocks : List (List Char × List Char)),
      strFind pre beginVEventMark = none →
      (∀ b ∈ blocks, strFind b.1 beginVEventMark = none ∧
        strFind b.1 endVEventMark = none ∧ strFind b.2 beginVEventMark = none ∧
        strFind b.2 endVEventMark = none) →
      CalDAV_Events_Parse (mkEventsBody pre blocks) =
        (.OK, blocks.map (fun b => CalDAV_Parse_Event_Block (vEventBlock b.1)))) ∧
    (∀ (pre tail : List Char) (blocks : List (List Char × List Char)),
      strFind pre beginVEventMark = none →
      (∀ b ∈ blocks, strFind b.1 beginVEventMark = none ∧
        strFind b.1 endVEventMark = none ∧ strFind b.2 beginVEventMark = none ∧
        strFind b.2 endVEventMark = none) →
      strFind tail beginVEventMark = none →
      strFind tail endVEventMark = none →
      CalDAV_Events_Parse (mkEventsBody pre blocks ++ (beginVEventMark ++ tail)) =
        (.OK, blocks.map (fun b => CalDAV_Parse_Event_Block (vEventBlock b.1)))) := by
  refine ⟨?_, ?_, ?_⟩
  · intro body h
    simp [CalDAV_Events_Parse, h]
  · intro pre blocks hp hb
    have hsh : mkEventsBody pre blocks =
        pre ++ ((blocks.map (fun b => vEventBlock b.1 ++ b.2)).flatten ++ []) := by
      simp [mkEventsBody]
    have hlen := blocks_length_le_mk pre blocks
    have hcont0 : ∀ pre2 extra2, strFind pre2 beginVEventMark = none →
        countBeginF (extra2 + 1) (pre2 ++ []) = 0 := by
      intro pre2 extra2 hp2
      rw [List.append_nil]
      exact countBeginF_none pre2 hp2 _
    have hcnt : countBeginVEvent (mkEventsBody pre blocks) = blocks.length := by
      unfold countBeginVEvent
      obtain ⟨d, hd⟩ : ∃ d, (mkEventsBody pre blocks).length + 1 = blocks.length + 1 + d :=
        ⟨(mkEventsBody pre blocks).length - blocks.length, by omega⟩
      rw [hd, hsh]
      rw [countBeginF_joined blocks pre [] d 0 hp hb hcont0]
      omega
    cases blocks with
    | nil =>
      simp [CalDAV_Events_Parse, hcnt]
    | cons b bs =>
      simp only [CalDAV_Events_Parse, hcnt]
      rw [if_neg (by simp)]
      have hcontS : ∀ pre2, strFind pre2 beginVEventMark = none →
          eventsScanF 0 (pre2 ++ []) = [] := fun pre2 hp2 => rfl
      have hscan2 : eventsScanF ((b :: bs).length) (mkEventsBody pre (b :: bs)) =
          (b :: bs).map (fun b => CalDAV_Parse_Event_Block (vEventBlock b.1)) := by
        have h := eventsScanF_joined (b :: bs) pre 0 [] [] hp hb hcontS
        rw [Nat.add_zero] at h
        rw [← hsh] at h
        simpa using h
      rw [hscan2]
  · intro pre tail blocks hp hb htb hte
    have hsh : mkEventsBody pre blocks ++ (beginVEventMark ++ tail) =
        pre ++ ((blocks.map (fun b => vEventBlock b.1 ++ b.2)).flatten ++
          (beginVEventMark ++ tail)) := by
      simp [mkEventsBody, List.append_assoc]
    have hlenmk := blocks_length_le_mk pre blocks
    have hlen2 : blocks.length ≤ (mkEventsBody pre blocks ++ (beginVEventMark ++ tail)).length := by
      simp only [List.length_append]
      omega
    have hcont1 : ∀ pre2 extra2, strFind pre2 beginVEventMark = none →
        countBeginF (extra2 + 1) (pre2 ++ (beginVEventMark ++ tail)) = 1 := by
      intro pre2 extra2 hp2
      rw [countBeginF_succ_found _ _ _ (strFind_pre_bM _ _ hp2)]
      rw [drop_pre_bM]
      rw [countBeginF_none tail htb _]
    have hcnt : countBeginVEvent (mkEventsBody pre blocks ++ (beginVEventMark ++ tail)) =
        blocks.length + 1 := by
      unfold countBeginVEvent
      obtain ⟨d, hd⟩ : ∃ d, (mkEventsBody pre blocks ++ (beginVEventMark ++ tail)).length + 1 =
          blocks.length + 1 + d :=
        ⟨(mkEventsBody pre blocks ++ (beginVEventMark ++ tail)).length - blocks.length, by omega⟩
      rw [hd, hsh]
      rw [countBeginF_joined blocks pre (beginVEventMark ++ tail) d 1 hp hb hcont1]
    have hcontS1 : ∀ pre2, strFind pre2 beginVEventMark = none →
        eventsScanF 1 (pre2 ++ (beginVEventMark ++ tail)) = [] := by
      intro pre2 hp2
      have h1 := strFind_pre_bM pre2 tail hp2
      have h2 : strFind ((pre2 ++ (beginVEventMark ++ tail)).drop pre2.length)
          endVEventMark = none := by
        rw [List.drop_left]
        exact strFind_eMnone_bMc tail hte
      exact eventsScanF_succ_noend 0 _ pre2.length h1 h2
    have hscan : eventsScanF (blocks.length + 1)
        (mkEventsBody pre blocks ++ (beginVEventMark ++ tail)) =
        blocks.map (fun b => CalDAV_Parse_Event_Block (vEventBlock b.1)) := by
      have h := eventsScanF_joined blocks pre 1 (beginVEventMark ++ tail) [] hp hb hcontS1
      rw [← hsh] at h
      simpa using h
    simp only [CalDAV_Events_Parse, hcnt]
    rw [if_neg (by omega)]
    rw [hscan]

/-- Claim C6, witness: the structural theorem applied to a concrete body with
two events, and to the same body followed by a truncated block. -/
theorem c6_witness :
    CalDAV_Events_Parse (mkEventsBody c6Pre c6Blocks) =
      (.OK, c6Blocks.map (fun b => CalDAV_Parse_Event_Block (vEventBlock b.1))) ∧
    CalDAV_Events_Parse (mkEventsBody c6Pre c6Blocks ++ (beginVEventMark ++ c6Tail)) =
      (.OK, c6Blocks.map (fun b => CalDAV_Parse_Event_Block (vEventBlock b.1))) :=
  ⟨c6_event_extraction.2.1 c6Pre c6Blocks (by decide) (by decide),
   c6_event_extraction.2.2 c6Pre c6Tail c6Blocks (by decide) (by decide) (by decide)
     (by decide)⟩
